import Mathlib

/-!
Verification of the chunked file-transfer protocol of the streamlet repository.

The embedding covers:
* the Chunker (`chunkFile` in `src/components/file-worker-manager.tsx`): splits a byte
  sequence into 16 KiB chunks with zero-based indices;
* the Assembler (`assembleFile` in `src/workers/file-worker.ts`): writes a list of chunks
  sequentially into a buffer of `metadata.size` bytes;
* the sort-by-index step of `processReceivedFile` (`src/components/file-worker-manager.tsx`);
* the transfer state machine of `handleData` in `src/app/sharefiles/page.tsx`:
  metadata, chunk and control messages acting on the list of active transfers.

Byte sequences are modelled as `List Nat`; a JavaScript `Map` (insertion-ordered, `set`
overwrites in place) is modelled as an association list with unique keys; the React state
`activeTransfers` is a `List ActiveTransfer` and each `setActiveTransfers` call of the
data handler is one step of `handleData`.  Wall-clock fields (`startTime`, `pausedAt`)
and the delayed removal timers are not modelled; no claim depends on them.
-/

namespace Streamlet

/-- `const chunkSize = 16 * 1024` in `chunkFile`. -/
def chunkSizeC : Nat := 16 * 1024

/-- `totalChunks = Math.ceil(file.size / chunkSize)` in `chunkFile` (exact for the
integer sizes involved). -/
def totalChunksOf (size : Nat) : Nat := (size + chunkSizeC - 1) / chunkSizeC

/-- The indexed chunks emitted by `chunkFile`: for `currentChunk = i < totalChunks`,
`start = i * chunkSize`, `end = min(start + chunkSize, file.size)`, and the chunk is
`file.slice(start, end)`, delivered as `{ fileId, index: i, data }`. -/
def chunkFilePairs (data : List Nat) : List (Nat × List Nat) :=
  (List.range (totalChunksOf data.length)).map
    (fun i => (i, (data.drop (i * chunkSizeC)).take chunkSizeC))

/-- The lengths of the chunks of a file of `size` bytes; chunk `i` covers bytes
`[i*chunkSize, min((i+1)*chunkSize, size))`. -/
def chunkLens (size : Nat) : List Nat :=
  (List.range (totalChunksOf size)).map (fun i => min chunkSizeC (size - i * chunkSizeC))

/-- JavaScript `Map.set k v` on an association list: if the key is present its value is
overwritten in place (iteration order keeps the original position), otherwise the pair
is appended (JS `Map` iterates in insertion order). -/
def mapSet (m : List (Nat × List Nat)) (k : Nat) (v : List Nat) : List (Nat × List Nat) :=
  if (m.lookup k).isSome then m.map (fun p => if p.1 = k then (k, v) else p)
  else m ++ [(k, v)]

/-- One `fileData.set(chunk, offset)` call of `assembleFile`: writes `chunk` into `buf`
at `off`; a typed-array `set` throws a `RangeError` (caught as an assembly error)
when the write would run past the end of the buffer. -/
def writeAt (buf : List Nat) (off : Nat) (chunk : List Nat) : Option (List Nat) :=
  if off + chunk.length ≤ buf.length then
    some (buf.take off ++ chunk ++ buf.drop (off + chunk.length))
  else none

/-- The `for (const chunk of chunks)` loop of `assembleFile`: sequential writes with
`offset += chunk.length` after each one. -/
def assembleLoop : List (List Nat) → List Nat → Nat → Option (List Nat)
  | [], buf, _ => some buf
  | c :: cs, buf, off =>
    match writeAt buf off c with
    | some buf2 => assembleLoop cs buf2 (off + c.length)
    | none => none

/-- `assembleFile` of `src/workers/file-worker.ts`: allocate
`new Uint8Array(metadata.size)` (zero-filled) and write the chunks sequentially.
`none` models the caught exception reported as an `ERROR` message. -/
def assembleFile (size : Nat) (chunks : List (List Nat)) : Option (List Nat) :=
  assembleLoop chunks (List.replicate size 0) 0

/-- The comparator `([a], [b]) => a - b` of `processReceivedFile`: sort entries by index. -/
def entryLE (a b : Nat × List Nat) : Prop := a.1 ≤ b.1

instance : DecidableRel entryLE := fun a b => Nat.decLe a.1 b.1

/-- `processReceivedFile`: sort the accumulated `Map` entries by chunk index, keep the
data parts, and hand them to the Assembler together with `metadata.size`. -/
def reconstructFile (size : Nat) (m : List (Nat × List Nat)) : Option (List Nat) :=
  assembleFile size ((List.insertionSort entryLE m).map Prod.snd)

/-- Deliver a list of `(index, data)` pairs to a fresh accumulation mapping in the given
arrival order (`chunks.set(chunk.index, ...)` for each one). -/
def buildMap (l : List (Nat × List Nat)) : List (Nat × List Nat) :=
  l.foldl (fun m p => mapSet m p.1 p.2) []

/-- `FileMetadata` of `src/components/file-worker-manager.tsx`. -/
structure FileMetadata where
  id : String
  name : String
  type : String
  size : Nat
  totalChunks : Nat
deriving DecidableEq

/-- The `status` field of an `ActiveTransfer` in `src/app/sharefiles/page.tsx`. -/
inductive TransferStatus
  | preparing
  | transferring
  | paused
  | completed
  | cancelled
  | error
deriving DecidableEq

/-- The `direction` field of an `ActiveTransfer`. -/
inductive Direction
  | sending
  | receiving
deriving DecidableEq

/-- `ActiveTransfer` of `src/app/sharefiles/page.tsx` (the wall-clock fields
`startTime`/`pausedAt` and the sender-only `file` handle are omitted; `chunks` defaults
to the empty map, matching `transfer.chunks || new Map()`). -/
structure ActiveTransfer where
  id : String
  metadata : FileMetadata
  progress : Rat
  status : TransferStatus
  direction : Direction
  chunks : List (Nat × List Nat)
  receivedSize : Nat
deriving DecidableEq

/-- Actions carried by a control message. -/
inductive ControlAction
  | pause
  | resume
  | cancel
deriving DecidableEq

/-- The three inbound message shapes discriminated by `handleData`:
`"metadata" in data`, `"fileId" in data && "index" in data && "data" in data`, and
`"control" in data && data.control && "fileId" in data.control`. -/
inductive DataMessage
  | metadata (m : FileMetadata)
  | chunk (fileId : String) (index : Nat) (data : List Nat)
  | control (fileId : String) (action : ControlAction)

/-- The record created by `handleData` on a metadata message: status `transferring`,
empty chunk map, zero progress and received size. -/
def mkReceivingTransfer (m : FileMetadata) : ActiveTransfer :=
  { id := m.id
    metadata := m
    progress := 0
    status := .transferring
    direction := .receiving
    chunks := []
    receivedSize := 0 }

/-- The chunk-arrival update applied to a matching transfer: insert the chunk,
add its byte length to `receivedSize`, recompute `progress` and, when
`chunks.size === totalChunks`, move to `completed`. -/
def applyChunk (t : ActiveTransfer) (idx : Nat) (d : List Nat) : ActiveTransfer :=
  let chunks := mapSet t.chunks idx d
  { t with
    chunks := chunks
    receivedSize := t.receivedSize + d.length
    progress := (chunks.length : Rat) / (t.metadata.totalChunks : Rat) * 100
    status := if chunks.length = t.metadata.totalChunks then .completed else .transferring }

/-- The per-record effect of a chunk message: the update applies only when
`transfer.id === chunk.fileId && transfer.status === "transferring"`. -/
def chunkUpdate (fid : String) (idx : Nat) (d : List Nat) (t : ActiveTransfer) :
    ActiveTransfer :=
  if t.id = fid ∧ t.status = .transferring then applyChunk t idx d else t

/-- The per-record effect of a control message: `t.id === fileId` is the only guard;
the named action overwrites the status unconditionally.  (The delayed removal of a
cancelled record, a 3-second timer, is not modelled.) -/
def controlUpdate (fid : String) (a : ControlAction) (t : ActiveTransfer) : ActiveTransfer :=
  if t.id = fid then
    { t with
      status :=
        match a with
        | .pause => .paused
        | .resume => .transferring
        | .cancel => .cancelled }
  else t

/-- One `handleData` step on the `activeTransfers` list: a metadata message appends a
fresh receiving record, a chunk message maps `chunkUpdate` over the list, a control
message maps `controlUpdate` over the list. -/
def handleData (s : List ActiveTransfer) : DataMessage → List ActiveTransfer
  | .metadata m => s ++ [mkReceivingTransfer m]
  | .chunk fid idx d => s.map (chunkUpdate fid idx d)
  | .control fid a => s.map (controlUpdate fid a)

/-- Process a sequence of inbound messages in order. -/
def applyMsgs (s : List ActiveTransfer) (ms : List DataMessage) : List ActiveTransfer :=
  ms.foldl handleData s

/-- Whether a message is a control message. -/
def DataMessage.isControl : DataMessage → Bool
  | .control _ _ => true
  | _ => false

/-- The condition under which the chunk branch schedules `handleCompleteFileReceived`
(which posts the accumulated chunks to the Assembler): the transfer matches, is in
`transferring`, and after insertion `chunks.size === totalChunks`. -/
def assemblyTriggered (fid : String) (idx : Nat) (d : List Nat) (t : ActiveTransfer) :
    Prop :=
  t.id = fid ∧ t.status = .transferring ∧
    (mapSet t.chunks idx d).length = t.metadata.totalChunks

/-- Sample metadata for a 3-byte file announced with `totalChunks = 2`, used in concrete
scenarios (the receiver trusts whatever `totalChunks` the metadata message carries). -/
def mdA : FileMetadata :=
  { id := "fileA", name := "a.bin", type := "application/octet-stream",
    size := 3, totalChunks := 2 }

/-- Sample metadata for a 1-byte file: `totalChunks = totalChunksOf 1 = 1`. -/
def mdB : FileMetadata :=
  { id := "fileB", name := "b.bin", type := "application/octet-stream",
    size := 1, totalChunks := 1 }

/-- Metadata of a 0-byte file: `totalChunks = totalChunksOf 0 = 0`. -/
def mdZero : FileMetadata :=
  { id := "fileZ", name := "empty.txt", type := "text/plain",
    size := 0, totalChunks := 0 }

/-- A paused receiving transfer for `mdA` with no chunks accumulated yet. -/
def pausedT : ActiveTransfer :=
  { id := "fileA", metadata := mdA, progress := 0, status := .paused,
    direction := .receiving, chunks := [], receivedSize := 0 }

/-- A transferring record for `mdA` holding one of its two chunks (2 bytes received). -/
def dupT : ActiveTransfer :=
  { id := "fileA", metadata := mdA, progress := (1 : Rat) / 2 * 100,
    status := .transferring, direction := .receiving, chunks := [(0, [9, 9])],
    receivedSize := 2 }

/-- Strict version of `entryLE`, used to show the sorted entry list is unique. -/
def entryLT (a b : Nat × List Nat) : Prop := a.1 < b.1

instance : IsAntisymm (Nat × List Nat) entryLT :=
  ⟨fun _ _ h h' => absurd (lt_trans h h') (lt_irrefl _)⟩

instance : IsTotal (Nat × List Nat) entryLE :=
  ⟨fun a b => Nat.le_total a.1 b.1⟩

instance : IsTrans (Nat × List Nat) entryLE :=
  ⟨fun _ _ _ h h' => le_trans h h'⟩

/-! ## Helper lemmas: chunker and assembler -/

theorem le_totalChunksOf_mul (size : Nat) : size ≤ totalChunksOf size * chunkSizeC := by
  unfold totalChunksOf chunkSizeC
  omega

theorem flatten_range_chunks (c n : Nat) :
    ∀ data : List Nat, data.length ≤ n * c →
      ((List.range n).map (fun i => (data.drop (i * c)).take c)).flatten = data := by
  induction n with
  | zero =>
    intro data h
    rw [Nat.zero_mul, Nat.le_zero] at h
    rw [List.eq_nil_of_length_eq_zero h]
    simp
  | succ n ih =>
    intro data h
    rw [Nat.succ_mul] at h
    rw [List.range_succ_eq_map, List.map_cons, List.map_map, List.flatten_cons]
    have hmap : (List.range n).map ((fun i => (data.drop (i * c)).take c) ∘ Nat.succ)
        = (List.range n).map (fun i => ((data.drop c).drop (i * c)).take c) := by
      refine List.map_congr_left fun i _ => ?_
      simp only [Function.comp_apply, List.drop_drop, Nat.succ_mul]
      rw [Nat.add_comm (i * c) c]
    rw [hmap, ih (data.drop c) (by rw [List.length_drop]; omega)]
    simp

theorem drop_append_add (l₁ l₂ : List Nat) (k : Nat) :
    (l₁ ++ l₂).drop (l₁.length + k) = l₂.drop k := by
  induction l₁ with
  | nil => simp
  | cons a l₁ ih =>
    simp only [List.cons_append, List.length_cons]
    rw [Nat.add_right_comm, List.drop_succ_cons, ih]

theorem assembleLoop_append (cs : List (List Nat)) :
    ∀ (buf : List Nat) (off : Nat), off + cs.flatten.length ≤ buf.length →
      assembleLoop cs buf off
        = some (buf.take off ++ cs.flatten ++ buf.drop (off + cs.flatten.length)) := by
  induction cs with
  | nil =>
    intro buf off h
    simp only [assembleLoop, List.flatten_nil, List.length_nil, Nat.add_zero,
      List.append_nil]
    rw [List.take_append_drop]
  | cons c cs ih =>
    intro buf off h
    simp only [List.flatten_cons, List.length_append] at h
    have hw : off + c.length ≤ buf.length := by omega
    have hoff : off ≤ buf.length := by omega
    simp only [assembleLoop, writeAt, if_pos hw]
    have hlen2 : (buf.take off ++ c ++ buf.drop (off + c.length)).length = buf.length := by
      simp only [List.length_append, List.length_take, List.length_drop]
      omega
    rw [ih _ (off + c.length) (by rw [hlen2]; omega)]
    have hpre : (buf.take off ++ c).length = off + c.length := by
      simp only [List.length_append, List.length_take]
      omega
    have htake : (buf.take off ++ c ++ buf.drop (off + c.length)).take (off + c.length)
        = buf.take off ++ c := by
      rw [← hpre, List.take_left]
    have hdrop : ∀ k : Nat,
        (buf.take off ++ c ++ buf.drop (off + c.length)).drop (off + c.length + k)
          = buf.drop (off + c.length + k) := by
      intro k
      have h1 : off + c.length + k = (buf.take off ++ c).length + k := by rw [hpre]
      rw [h1, drop_append_add, List.drop_drop, hpre]
    rw [htake, hdrop]
    simp [List.append_assoc, Nat.add_assoc]

theorem assembleFile_flatten (cs : List (List Nat)) :
    assembleFile cs.flatten.length cs = some cs.flatten := by
  unfold assembleFile
  rw [assembleLoop_append cs _ 0 (by rw [List.length_replicate]; omega)]
  simp [List.drop_replicate]

/-! ## Helper lemmas: the accumulation mapping and the sort-by-index step -/

theorem lookup_eq_none_of_fresh {m : List (Nat × List Nat)} {k : Nat}
    (h : ∀ p ∈ m, p.1 ≠ k) : m.lookup k = none := by
  induction m with
  | nil => rfl
  | cons p m ih =>
    have hk : (k == p.1) = false := by
      have := h p (List.mem_cons_self p m)
      simp [beq_iff_eq]
      omega
    simp only [List.lookup, hk]
    exact ih fun q hq => h q (List.mem_cons_of_mem _ hq)

theorem mapSet_fresh {m : List (Nat × List Nat)} {k : Nat} {v : List Nat}
    (h : ∀ p ∈ m, p.1 ≠ k) : mapSet m k v = m ++ [(k, v)] := by
  unfold mapSet
  rw [lookup_eq_none_of_fresh h]
  simp

theorem buildMap_go (l : List (Nat × List Nat)) :
    ∀ m : List (Nat × List Nat), ((m ++ l).map Prod.fst).Nodup →
      l.foldl (fun m p => mapSet m p.1 p.2) m = m ++ l := by
  induction l with
  | nil => intro m _; simp
  | cons p l ih =>
    intro m h
    have hfresh : ∀ q ∈ m, q.1 ≠ p.1 := by
      intro q hq
      rw [List.map_append, List.nodup_append] at h
      exact fun hbad =>
        h.2.2 (List.mem_map_of_mem Prod.fst hq)
          (by rw [hbad]; exact List.mem_map_of_mem Prod.fst (List.mem_cons_self p l))
    rw [List.foldl_cons, mapSet_fresh hfresh, ih (m ++ [p])
      (by rwa [List.append_assoc, List.singleton_append]), List.append_assoc,
      List.singleton_append]

theorem buildMap_eq_self {l : List (Nat × List Nat)} (h : (l.map Prod.fst).Nodup) :
    buildMap l = l := by
  have := buildMap_go l [] (by simpa using h)
  simpa [buildMap] using this

theorem sorted_entryLT_of_sorted_le {l : List (Nat × List Nat)}
    (hs : l.Sorted entryLE) (hn : (l.map Prod.fst).Nodup) : l.Sorted entryLT := by
  have hpair : l.Pairwise fun a b => a.1 ≠ b.1 := by
    rw [List.Nodup, List.pairwise_map] at hn
    exact hn
  exact (hs.and hpair).imp fun h => lt_of_le_of_ne h.1 h.2

theorem sorted_entries_unique {l₁ l₂ : List (Nat × List Nat)} (hp : l₁.Perm l₂)
    (hn : (l₁.map Prod.fst).Nodup) :
    List.insertionSort entryLE l₁ = List.insertionSort entryLE l₂ := by
  have hn₂ : (l₂.map Prod.fst).Nodup := ((hp.map Prod.fst).nodup_iff).mp hn
  have hns₁ : ((List.insertionSort entryLE l₁).map Prod.fst).Nodup :=
    (((List.perm_insertionSort entryLE l₁).map Prod.fst).nodup_iff).mpr hn
  have hns₂ : ((List.insertionSort entryLE l₂).map Prod.fst).Nodup :=
    (((List.perm_insertionSort entryLE l₂).map Prod.fst).nodup_iff).mpr hn₂
  exact List.eq_of_perm_of_sorted (r := entryLT)
    ((List.perm_insertionSort entryLE l₁).trans
      (hp.trans (List.perm_insertionSort entryLE l₂).symm))
    (sorted_entryLT_of_sorted_le (List.sorted_insertionSort entryLE l₁) hns₁)
    (sorted_entryLT_of_sorted_le (List.sorted_insertionSort entryLE l₂) hns₂)

theorem chunkFilePairs_keys (data : List Nat) :
    (chunkFilePairs data).map Prod.fst = List.range (totalChunksOf data.length) := by
  simp [chunkFilePairs, List.map_map, Function.comp_def]

theorem chunkFilePairs_sorted (data : List Nat) :
    (chunkFilePairs data).Sorted entryLE := by
  unfold chunkFilePairs
  rw [List.Sorted, List.pairwise_map]
  exact (List.sorted_le_range (totalChunksOf data.length)).imp fun h => h

theorem sortEntries_chunkFilePairs (data : List Nat) :
    List.insertionSort entryLE (chunkFilePairs data) = chunkFilePairs data :=
  List.Sorted.insertionSort_eq (chunkFilePairs_sorted data)

theorem chunkFilePairs_lens (data : List Nat) :
    (chunkFilePairs data).map (fun p => p.2.length) = chunkLens data.length := by
  unfold chunkFilePairs chunkLens
  rw [List.map_map]
  refine List.map_congr_left fun i _ => ?_
  simp [Function.comp_def, List.length_take, List.length_drop]

theorem chunkLens_get_of_lt {size i : Nat} (h : i + 1 < totalChunksOf size) :
    (chunkLens size)[i]? = some chunkSizeC := by
  unfold chunkLens
  rw [List.getElem?_map, List.getElem?_range (by omega), Option.map_some']
  have hle : chunkSizeC ≤ size - i * chunkSizeC := by
    unfold totalChunksOf at h
    unfold chunkSizeC at h ⊢
    omega
  rw [Nat.min_eq_left hle]

theorem chunkLens_get_last {size : Nat} (h : 0 < size) :
    (chunkLens size)[totalChunksOf size - 1]?
      = some (size - (totalChunksOf size - 1) * chunkSizeC) := by
  have hn : 0 < totalChunksOf size := by
    unfold totalChunksOf chunkSizeC
    omega
  unfold chunkLens
  rw [List.getElem?_map, List.getElem?_range (by omega), Option.map_some']
  have hle : size - (totalChunksOf size - 1) * chunkSizeC ≤ chunkSizeC := by
    unfold totalChunksOf chunkSizeC at hn ⊢
    omega
  rw [Nat.min_eq_right hle]

/-! ## Helper lemmas: the transfer state machine -/

theorem mapSet_length_pos (m : List (Nat × List Nat)) (k : Nat) (v : List Nat) :
    0 < (mapSet m k v).length := by
  by_cases h : (m.lookup k).isSome
  · rw [mapSet, if_pos h, List.length_map]
    cases m with
    | nil => simp [List.lookup] at h
    | cons p m => simp
  · rw [mapSet, if_neg h]
    simp

theorem chunkUpdate_of_not_transferring {t : ActiveTransfer}
    (h : t.status ≠ .transferring) (fid : String) (idx : Nat) (d : List Nat) :
    chunkUpdate fid idx d t = t := by
  unfold chunkUpdate
  exact if_neg fun hc => h hc.2

theorem chunkUpdate_of_not_id {t : ActiveTransfer} {fid : String} (h : t.id ≠ fid)
    (idx : Nat) (d : List Nat) : chunkUpdate fid idx d t = t := by
  unfold chunkUpdate
  exact if_neg fun hc => h hc.1

theorem chunkUpdate_metadata (fid : String) (idx : Nat) (d : List Nat)
    (t : ActiveTransfer) : (chunkUpdate fid idx d t).metadata = t.metadata := by
  unfold chunkUpdate applyChunk
  split <;> rfl

theorem controlUpdate_metadata (fid : String) (a : ControlAction) (t : ActiveTransfer) :
    (controlUpdate fid a t).metadata = t.metadata := by
  unfold controlUpdate
  split <;> rfl

theorem controlUpdate_status_ne_completed (fid : String) (a : ControlAction)
    {t : ActiveTransfer} (h : t.status ≠ .completed) :
    (controlUpdate fid a t).status ≠ .completed := by
  unfold controlUpdate
  split
  · cases a <;> simp
  · exact h

theorem map_eq_self_of_eq {s : List ActiveTransfer}
    {f : ActiveTransfer → ActiveTransfer} (h : ∀ t ∈ s, f t = t) : s.map f = s := by
  induction s with
  | nil => rfl
  | cons a s ih =>
    rw [List.map_cons, h a (List.mem_cons_self a s),
      ih fun t ht => h t (List.mem_cons_of_mem a ht)]

theorem completed_stable_step {msg : DataMessage} (hmsg : msg.isControl = false)
    {s : List ActiveTransfer} {k : Nat} {t : ActiveTransfer} (hk : s[k]? = some t)
    (hc : t.status = .completed) : (handleData s msg)[k]? = some t := by
  cases msg with
  | metadata m =>
    have hlen : k < s.length := (List.getElem?_eq_some.mp hk).1
    rw [handleData, List.getElem?_append_left hlen, hk]
  | chunk fid idx d =>
    rw [handleData, List.getElem?_map, hk, Option.map_some',
      chunkUpdate_of_not_transferring (by rw [hc]; exact fun h => by cases h) fid idx d]
  | control fid a => simp [DataMessage.isControl] at hmsg

theorem completed_stable_msgs (ms : List DataMessage)
    (hms : ∀ m ∈ ms, m.isControl = false) :
    ∀ (s : List ActiveTransfer) (k : Nat) (t : ActiveTransfer), s[k]? = some t →
      t.status = .completed → (applyMsgs s ms)[k]? = some t := by
  induction ms with
  | nil => intro s k t hk _; exact hk
  | cons m ms ih =>
    intro s k t hk hc
    have hstep := completed_stable_step (hms m (List.mem_cons_self m ms)) hk hc
    exact ih (fun m' hm' => hms m' (List.mem_cons_of_mem m hm')) (handleData s m) k t
      hstep hc

theorem zero_chunks_never_completed (ms : List DataMessage) :
    ∀ s : List ActiveTransfer,
      (∀ t ∈ s, t.metadata.totalChunks = 0 → t.status ≠ .completed) →
      ∀ t ∈ applyMsgs s ms, t.metadata.totalChunks = 0 → t.status ≠ .completed := by
  induction ms with
  | nil => intro s h; exact h
  | cons m ms ih =>
    intro s h
    refine ih (handleData s m) ?_
    intro t ht h0
    cases m with
    | metadata md =>
      rcases List.mem_append.mp ht with h1 | h1
      · exact h t h1 h0
      · rw [List.mem_singleton.mp h1]
        intro hc
        cases hc
    | chunk fid idx d =>
      rcases List.mem_map.mp ht with ⟨u, hu, rfl⟩
      have h0u : u.metadata.totalChunks = 0 := by
        rw [← chunkUpdate_metadata fid idx d u]; exact h0
      by_cases hg : u.id = fid ∧ u.status = .transferring
      · rw [chunkUpdate, if_pos hg, applyChunk]
        simp only
        rw [if_neg (by have := mapSet_length_pos u.chunks idx d; omega)]
        intro hc
        cases hc
      · rw [chunkUpdate, if_neg hg]
        exact h u hu h0u
    | control fid a =>
      rcases List.mem_map.mp ht with ⟨u, hu, rfl⟩
      have h0u : u.metadata.totalChunks = 0 := by
        rw [← controlUpdate_metadata fid a u]; exact h0
      exact controlUpdate_status_ne_completed fid a (h u hu h0u)

/-! ## Claims -/

/-- C1: Round-trip: for every byte sequence, chunking it with `chunkFile` (16 KiB
chunks), accumulating the complete set of indexed chunks, sorting them by index as
`processReceivedFile` does, and assembling with `assembleFile` (into a buffer of the
file's size) reproduces the original byte sequence exactly.  The statement is universal
over the sequence, so it covers every length N, in particular 0, 1, C-1, C, C+1 and
10*C+7 for C = 16384. -/
theorem C1_round_trip (data : List Nat) :
    reconstructFile data.length (buildMap (chunkFilePairs data)) = some data := by
  rw [buildMap_eq_self (by rw [chunkFilePairs_keys]; exact List.nodup_range _)]
  unfold reconstructFile
  rw [sortEntries_chunkFilePairs]
  have hsnd : (chunkFilePairs data).map Prod.snd
      = (List.range (totalChunksOf data.length)).map
          (fun i => (data.drop (i * chunkSizeC)).take chunkSizeC) := by
    simp [chunkFilePairs, List.map_map, Function.comp_def]
  rw [hsnd]
  have hflat := flatten_range_chunks chunkSizeC (totalChunksOf data.length) data
    (le_totalChunksOf_mul data.length)
  have h := assembleFile_flatten ((List.range (totalChunksOf data.length)).map
    (fun i => (data.drop (i * chunkSizeC)).take chunkSizeC))
  rw [hflat] at h
  exact h

/-- C2 (amended): a chunk arriving for a paused transfer is dropped, not accumulated:
the chunk branch of `handleData` updates a transfer only when its status is
`transferring`, so a `paused` record is left completely unchanged by a chunk message. -/
theorem C2_paused_chunk_ignored (fid : String) (idx : Nat) (d : List Nat)
    (t : ActiveTransfer) (h : t.status = .paused) : chunkUpdate fid idx d t = t :=
  chunkUpdate_of_not_transferring (by rw [h]; exact fun hc => by cases hc) fid idx d

/-- C2 witness: the paused record `pausedT` is untouched by an arriving chunk. -/
theorem C2_paused_chunk_ignored_witness :
    pausedT.status = .paused ∧ chunkUpdate "fileA" 0 [5] pausedT = pausedT :=
  ⟨rfl, C2_paused_chunk_ignored "fileA" 0 [5] pausedT rfl⟩

/-- C2 counterexample to the claim as stated: receive metadata for `fileA`
(`totalChunks = 2`), pause it, then deliver chunk 0.  The chunk is not inserted: the
mapping stays empty and `receivedSize` stays 0, so a chunk arriving while paused is
dropped rather than accepted. -/
theorem C2_paused_chunk_counterexample :
    (applyMsgs [] [.metadata mdA, .control "fileA" .pause, .chunk "fileA" 0 [5]]).map
        (fun t => (t.status, t.chunks.length, t.receivedSize))
      = [(.paused, 0, 0)] := by decide

/-- C3 (amended): for a transfer in `transferring`, a chunk message moves it to
`completed` precisely when the insertion makes the mapping's size equal
`metadata.totalChunks`, and exactly then is assembly scheduled; chunk and metadata
messages never move a `completed` record, so along any control-free message sequence
the transition fires at most once.  (A `resume` control aimed at a completed transfer
can return it to `transferring`, after which a duplicate chunk fires the transition
again — see the counterexample.) -/
theorem C3_completion_cardinality :
    (∀ (t : ActiveTransfer) (fid : String) (idx : Nat) (d : List Nat),
        t.id = fid → t.status = .transferring →
        ((chunkUpdate fid idx d t).status = .completed ↔
          (mapSet t.chunks idx d).length = t.metadata.totalChunks)) ∧
    (∀ (t : ActiveTransfer) (fid : String) (idx : Nat) (d : List Nat),
        t.id = fid → t.status = .transferring →
        (assemblyTriggered fid idx d t ↔ (chunkUpdate fid idx d t).status = .completed)) ∧
    (∀ (t : ActiveTransfer) (fid : String) (idx : Nat) (d : List Nat),
        t.status = .completed → chunkUpdate fid idx d t = t) ∧
    (∀ ms : List DataMessage, (∀ m ∈ ms, m.isControl = false) →
        ∀ (s : List ActiveTransfer) (k : Nat) (t : ActiveTransfer), s[k]? = some t →
          t.status = .completed → (applyMsgs s ms)[k]? = some t) := by
  refine ⟨?_, ?_, ?_, completed_stable_msgs⟩
  · intro t fid idx d hid hst
    rw [chunkUpdate, if_pos ⟨hid, hst⟩, applyChunk]
    simp only
    constructor
    · intro h
      by_contra hne
      rw [if_neg hne] at h
      cases h
    · intro h
      rw [if_pos h]
  · intro t fid idx d hid hst
    rw [chunkUpdate, if_pos ⟨hid, hst⟩, applyChunk]
    simp only
    unfold assemblyTriggered
    constructor
    · intro h
      rw [if_pos h.2.2]
    · intro h
      refine ⟨hid, hst, ?_⟩
      by_contra hne
      rw [if_neg hne] at h
      cases h
  · intro t fid idx d hc
    exact chunkUpdate_of_not_transferring (by rw [hc]; exact fun h => by cases h) fid idx d

/-- C3 witness: for the fresh `fileB` record (`totalChunks = 1`), inserting chunk 0
completes it and schedules assembly, and the completed record is untouched by a
further chunk. -/
theorem C3_completion_cardinality_witness :
    ((chunkUpdate "fileB" 0 [7] (mkReceivingTransfer mdB)).status = .completed ↔
      (mapSet (mkReceivingTransfer mdB).chunks 0 [7]).length = mdB.totalChunks) ∧
    (assemblyTriggered "fileB" 0 [7] (mkReceivingTransfer mdB) ↔
      (chunkUpdate "fileB" 0 [7] (mkReceivingTransfer mdB)).status = .completed) ∧
    (applyMsgs [mkReceivingTransfer mdB] [.chunk "fileB" 0 [7], .chunk "fileB" 0 [7]])[0]?
      = (applyMsgs [mkReceivingTransfer mdB] [.chunk "fileB" 0 [7]])[0]? := by
  refine ⟨C3_completion_cardinality.1 _ "fileB" 0 [7] rfl rfl,
    C3_completion_cardinality.2.1 _ "fileB" 0 [7] rfl rfl, ?_⟩
  have h := C3_completion_cardinality.2.2.2 [.chunk "fileB" 0 [7]] (by decide)
    (applyMsgs [mkReceivingTransfer mdB] [.chunk "fileB" 0 [7]]) 0
    (chunkUpdate "fileB" 0 [7] (mkReceivingTransfer mdB)) rfl (by decide)
  exact h

/-- C3 counterexample to "fires exactly once": complete `fileB`, hit it with a
`resume` control (the code moves any record named by a resume back to `transferring`),
then re-deliver the duplicate chunk 0: the record transitions `transferring` →
`completed` a second time, caused by a duplicate rather than by the last distinct
index. -/
theorem C3_completion_counterexample :
    (applyMsgs [] [.metadata mdB, .chunk "fileB" 0 [7]]).map (fun t => t.status)
        = [.completed] ∧
    (applyMsgs [] [.metadata mdB, .chunk "fileB" 0 [7], .control "fileB" .resume]).map
        (fun t => t.status) = [.transferring] ∧
    (applyMsgs [] [.metadata mdB, .chunk "fileB" 0 [7], .control "fileB" .resume,
        .chunk "fileB" 0 [7]]).map (fun t => t.status) = [.completed] := by
  exact ⟨by decide, by decide, by decide⟩

/-- C4 (amended): terminal statuses survive chunk and metadata messages — a chunk
message leaves a `completed`/`cancelled`/`error` record unchanged and a metadata
message only appends — but a control message naming the transfer's `fileId`
overwrites its status unconditionally (pause → `paused`, resume → `transferring`,
cancel → `cancelled`), so a terminal status can be exited. -/
theorem C4_terminal_states :
    (∀ (fid : String) (idx : Nat) (d : List Nat) (t : ActiveTransfer),
        t.status = .completed ∨ t.status = .cancelled ∨ t.status = .error →
        chunkUpdate fid idx d t = t) ∧
    (∀ (s : List ActiveTransfer) (m : FileMetadata) (k : Nat) (t : ActiveTransfer),
        s[k]? = some t → (handleData s (.metadata m))[k]? = some t) ∧
    (∀ (fid : String) (t : ActiveTransfer), t.id = fid →
        (controlUpdate fid .pause t).status = .paused ∧
        (controlUpdate fid .resume t).status = .transferring ∧
        (controlUpdate fid .cancel t).status = .cancelled) := by
  refine ⟨?_, ?_, ?_⟩
  · intro fid idx d t h
    refine chunkUpdate_of_not_transferring ?_ fid idx d
    rcases h with h | h | h <;> rw [h] <;> exact fun hc => by cases hc
  · intro s m k t hk
    have hlen : k < s.length := (List.getElem?_eq_some.mp hk).1
    rw [handleData, List.getElem?_append_left hlen, hk]
  · intro fid t hid
    refine ⟨?_, ?_, ?_⟩ <;> rw [controlUpdate, if_pos hid]

/-- C4 witness: the completed `fileB` record is unchanged by a further chunk and by a
metadata message, and a pause control on it sets status `paused`. -/
theorem C4_terminal_states_witness :
    chunkUpdate "fileB" 1 [8] (chunkUpdate "fileB" 0 [7] (mkReceivingTransfer mdB))
      = chunkUpdate "fileB" 0 [7] (mkReceivingTransfer mdB) ∧
    (handleData [mkReceivingTransfer mdB] (.metadata mdA))[0]?
      = some (mkReceivingTransfer mdB) ∧
    (controlUpdate "fileB" .pause
      (chunkUpdate "fileB" 0 [7] (mkReceivingTransfer mdB))).status = .paused :=
  ⟨C4_terminal_states.1 "fileB" 1 [8] _ (Or.inl (by decide)),
    C4_terminal_states.2.1 [mkReceivingTransfer mdB] mdA 0 _ rfl,
    (C4_terminal_states.2.2 "fileB" _ rfl).1⟩

/-- C4 counterexample to the claim as stated: after `fileB` completes, a pause control
message naming it changes its status from `completed` to `paused` — a terminal state
is re-entered/exited by a subsequent event. -/
theorem C4_terminal_states_counterexample :
    (applyMsgs [] [.metadata mdB, .chunk "fileB" 0 [7]]).map (fun t => t.status)
        = [.completed] ∧
    (applyMsgs [] [.metadata mdB, .chunk "fileB" 0 [7], .control "fileB" .pause]).map
        (fun t => t.status) = [.paused] := by
  exact ⟨by decide, by decide⟩

/-- C5 (amended): a metadata message is never rejected or merged: `handleData`
unconditionally appends a fresh receiving record, so a second metadata message for an
already-active `fileId` creates a second active record for that id (the count of
records with that id strictly increases). -/
theorem C5_metadata_always_appends (s : List ActiveTransfer) (m : FileMetadata) :
    handleData s (.metadata m) = s ++ [mkReceivingTransfer m] ∧
    ((handleData s (.metadata m)).filter (fun t => t.id == m.id)).length
      = ((s.filter (fun t => t.id == m.id))).length + 1 := by
  refine ⟨rfl, ?_⟩
  rw [show handleData s (.metadata m) = s ++ [mkReceivingTransfer m] from rfl,
    List.filter_append, List.length_append]
  simp [mkReceivingTransfer]

/-- C5 counterexample to the claim as stated: two metadata messages for `fileB` leave
two live records with `id = "fileB"` in the active set — the second message is not
rejected and does create a second active record. -/
theorem C5_metadata_counterexample :
    ((applyMsgs [] [.metadata mdB, .metadata mdB]).filter
        (fun t => t.id == "fileB")).length = 2 := by decide

/-- C6: Order independence: delivering the same set of `(index, data)` pairs (distinct
indices, in any permutation of arrival order) to the accumulation mapping yields the
identical reconstructed byte sequence from the sort-and-assemble pipeline. -/
theorem C6_order_independence (size : Nat) (l₁ l₂ : List (Nat × List Nat))
    (hp : l₁.Perm l₂) (hn : (l₁.map Prod.fst).Nodup) :
    reconstructFile size (buildMap l₁) = reconstructFile size (buildMap l₂) := by
  have hn₂ : (l₂.map Prod.fst).Nodup := ((hp.map Prod.fst).nodup_iff).mp hn
  rw [buildMap_eq_self hn, buildMap_eq_self hn₂]
  unfold reconstructFile
  rw [sorted_entries_unique hp hn]

/-- C6 witness (Scenario C): delivering chunks in order 2,0,3,1 of a 4-chunk transfer
reconstructs the same bytes as delivering 0,1,2,3. -/
theorem C6_order_independence_witness :
    ([(0, [1]), (1, [2]), (2, [3]), (3, [4])] : List (Nat × List Nat)).Perm
        [(2, [3]), (0, [1]), (3, [4]), (1, [2])] ∧
    reconstructFile 4 (buildMap [(0, [1]), (1, [2]), (2, [3]), (3, [4])])
      = reconstructFile 4 (buildMap [(2, [3]), (0, [1]), (3, [4]), (1, [2])]) :=
  ⟨by decide, C6_order_independence 4 _ _ (by decide) (by decide)⟩

/-- C7 (amended): a 0-byte file has the fixed value `totalChunks = 0`, applied
consistently: the chunker emits no chunks, and on the receiving side the completion
check (`chunks.size === totalChunks`) is evaluated only on chunk arrival, so the
receiving record never reaches `completed` — no message sequence whatsoever moves a
`totalChunks = 0` record to `completed`, and no 0-byte assembled result is produced. -/
theorem C7_zero_byte_file :
    totalChunksOf 0 = 0 ∧ chunkFilePairs [] = [] ∧
    (∀ (fid : String) (idx : Nat) (d : List Nat) (t : ActiveTransfer),
        t.metadata.totalChunks = 0 → t.status ≠ .completed →
        (chunkUpdate fid idx d t).status ≠ .completed) ∧
    (∀ ms : List DataMessage, ∀ t ∈ applyMsgs [] ms,
        t.metadata.totalChunks = 0 → t.status ≠ .completed) := by
  refine ⟨by decide, by decide, ?_, fun ms => zero_chunks_never_completed ms [] (by simp)⟩
  intro fid idx d t h0 hne
  by_cases hg : t.id = fid ∧ t.status = .transferring
  · rw [chunkUpdate, if_pos hg, applyChunk]
    simp only
    rw [if_neg (by have := mapSet_length_pos t.chunks idx d; omega)]
    exact fun hc => by cases hc
  · rw [chunkUpdate, if_neg hg]
    exact hne

/-- C7 witness: the fresh 0-chunk `fileZ` record is not completed, and stays
non-completed even if an (adversarial) chunk for it arrives. -/
theorem C7_zero_byte_file_witness :
    (mkReceivingTransfer mdZero).status ≠ .completed ∧
    (chunkUpdate "fileZ" 0 [1] (mkReceivingTransfer mdZero)).status ≠ .completed :=
  ⟨C7_zero_byte_file.2.2.2 [.metadata mdZero] (mkReceivingTransfer mdZero)
      (List.mem_singleton.mpr rfl) rfl,
    C7_zero_byte_file.2.2.1 "fileZ" 0 [1] (mkReceivingTransfer mdZero) rfl (by decide)⟩

/-- C7 counterexample to the claim as stated: after processing every message the
sender emits for the 0-byte file (just the metadata message — `chunkFilePairs [] = []`,
so no chunks are sent), the receiving record's status is `transferring`, not
`completed`: the receiving side never reaches completion. -/
theorem C7_zero_byte_counterexample :
    chunkFilePairs [] = [] ∧
    (applyMsgs [] [.metadata mdZero]).map (fun t => t.status) = [.transferring] := by
  exact ⟨by decide, by decide⟩

/-- C8: Chunker decomposition shape: `chunkFile` emits exactly
`totalChunks = ceil(size / 16384)` chunks with contiguous zero-based indices
`0, ..., totalChunks-1`; every chunk except the last has length 16384 and the last has
length `size - (totalChunks-1)*16384`; in particular a 50,000-byte file yields 4
chunks of lengths `[16384, 16384, 16384, 848]`. -/
theorem C8_chunker_shape :
    (∀ data : List Nat,
        (chunkFilePairs data).map Prod.fst = List.range (totalChunksOf data.length) ∧
        (chunkFilePairs data).map (fun p => p.2.length) = chunkLens data.length) ∧
    (∀ size i : Nat, i + 1 < totalChunksOf size →
        (chunkLens size)[i]? = some chunkSizeC) ∧
    (∀ size : Nat, 0 < size →
        (chunkLens size)[totalChunksOf size - 1]?
          = some (size - (totalChunksOf size - 1) * chunkSizeC)) ∧
    totalChunksOf 50000 = 4 ∧ chunkLens 50000 = [16384, 16384, 16384, 848] :=
  ⟨fun data => ⟨chunkFilePairs_keys data, chunkFilePairs_lens data⟩,
    fun _ _ h => chunkLens_get_of_lt h, fun _ h => chunkLens_get_last h,
    by decide, by decide⟩

/-- C8 witness: concrete instances — a 3-byte file has the single index 0, and in the
50,000-byte case chunk 1 has length 16384 and chunk 3 (the last) has length 848. -/
theorem C8_chunker_shape_witness :
    (chunkFilePairs [5, 6, 7]).map Prod.fst = [0] ∧
    (chunkLens 50000)[1]? = some 16384 ∧
    (chunkLens 50000)[3]? = some 848 :=
  ⟨(C8_chunker_shape.1 [5, 6, 7]).1.trans (by decide),
    C8_chunker_shape.2.1 50000 1 (by decide),
    C8_chunker_shape.2.2.1 50000 (by decide)⟩

/-- C9: messages for an unknown `fileId` are no-ops: if no active record carries the
`fileId` of a chunk or control message, `handleData` returns the active set unchanged
(every record untouched, no failure). -/
theorem C9_unknown_transfer_noop (s : List ActiveTransfer) (fid : String)
    (h : ∀ t ∈ s, t.id ≠ fid) (idx : Nat) (d : List Nat) (a : ControlAction) :
    handleData s (.chunk fid idx d) = s ∧ handleData s (.control fid a) = s := by
  constructor
  · refine map_eq_self_of_eq fun t ht => ?_
    exact chunkUpdate_of_not_id (h t ht) idx d
  · refine map_eq_self_of_eq fun t ht => ?_
    unfold controlUpdate
    rw [if_neg (h t ht)]

/-- C9 witness: a chunk and a cancel control for the absent id "nope" leave the
active set (holding only the `fileB` record) unchanged. -/
theorem C9_unknown_transfer_noop_witness :
    handleData [mkReceivingTransfer mdB] (.chunk "nope" 0 [1])
      = [mkReceivingTransfer mdB] ∧
    handleData [mkReceivingTransfer mdB] (.control "nope" .cancel)
      = [mkReceivingTransfer mdB] :=
  C9_unknown_transfer_noop [mkReceivingTransfer mdB] "nope" (by decide) 0 [1] .cancel

/-- C10: duplicate-chunk effect: when a chunk arrives for a `transferring` transfer
whose index is already in the mapping (and the mapping is not already full — true in
every state reachable without a resume aimed at a completed transfer), the stored data
for that index is overwritten in place, the mapping's size, the status and the
(recomputed) progress are unchanged, but `receivedSize` grows by the duplicate's byte
length again — so `receivedSize` can exceed `metadata.size` (see the witness). -/
theorem C10_duplicate_chunk (t : ActiveTransfer) (fid : String) (idx : Nat)
    (d : List Nat) (hid : t.id = fid) (hst : t.status = .transferring)
    (hdup : (t.chunks.lookup idx).isSome = true)
    (hincomplete : t.chunks.length ≠ t.metadata.totalChunks)
    (hprog : t.progress = (t.chunks.length : Rat) / (t.metadata.totalChunks : Rat) * 100) :
    (chunkUpdate fid idx d t).chunks.length = t.chunks.length ∧
    (chunkUpdate fid idx d t).status = .transferring ∧
    (chunkUpdate fid idx d t).progress = t.progress ∧
    (chunkUpdate fid idx d t).receivedSize = t.receivedSize + d.length ∧
    (chunkUpdate fid idx d t).chunks
      = t.chunks.map (fun p => if p.1 = idx then (idx, d) else p) := by
  have hset : mapSet t.chunks idx d
      = t.chunks.map (fun p => if p.1 = idx then (idx, d) else p) := by
    rw [mapSet, if_pos hdup]
  have hlen : (mapSet t.chunks idx d).length = t.chunks.length := by
    rw [hset, List.length_map]
  rw [chunkUpdate, if_pos ⟨hid, hst⟩, applyChunk]
  simp only
  rw [hlen, hset, if_neg hincomplete, hprog]
  and_intros <;> trivial

/-- C10 witness: `dupT` holds chunk 0 (2 of 3 bytes received, `totalChunks = 2`);
re-delivering chunk 0 with 2 bytes keeps size/status/progress but raises
`receivedSize` to 4, exceeding `metadata.size = 3`. -/
theorem C10_duplicate_chunk_witness :
    (chunkUpdate "fileA" 0 [9, 9] dupT).chunks.length = dupT.chunks.length ∧
    (chunkUpdate "fileA" 0 [9, 9] dupT).status = .transferring ∧
    (chunkUpdate "fileA" 0 [9, 9] dupT).progress = dupT.progress ∧
    (chunkUpdate "fileA" 0 [9, 9] dupT).receivedSize = dupT.receivedSize + 2 ∧
    dupT.metadata.size < dupT.receivedSize + 2 :=
  have h := C10_duplicate_chunk dupT "fileA" 0 [9, 9] rfl rfl (by decide) (by decide)
    (by norm_num [dupT, mdA])
  ⟨h.1, h.2.1, h.2.2.1, h.2.2.2.1, by decide⟩

end Streamlet
